import Mathlib

/-!
Verification of the menu data pipeline of `src/SRM_Canteen_Menu/src/App.tsx`.

Strings of the JavaScript program are embedded as `List Char` (named `Str`),
so that every operation is structurally recursive and computable by the
kernel.  `splitOnSep` embeds `String.prototype.split` with a one-character
separator (splitting the empty string yields one empty field, exactly as in
JavaScript), and `trimStr` embeds `String.prototype.trim`.
-/

/-- JavaScript strings, embedded as lists of characters. -/
abbrev Str := List Char

/-- Embedding of `String.prototype.trim`: strip leading and trailing
whitespace characters from both ends. -/
def trimStr (s : Str) : Str :=
  ((s.dropWhile Char.isWhitespace).reverse.dropWhile Char.isWhitespace).reverse

/-- Embedding of `String.prototype.split` with a single-character separator:
`splitOnSep sep s` cuts `s` at every occurrence of `sep`.  As in JavaScript,
the result always has at least one (possibly empty) field. -/
def splitOnSep (sep : Char) : Str → List Str
  | [] => [[]]
  | c :: cs =>
      if c = sep then [] :: splitOnSep sep cs
      else
        match splitOnSep sep cs with
        | [] => [[c]]
        | f :: fs => (c :: f) :: fs

/-- One parsed row (`MenuItem` in `App.tsx`).  A field is `none` when the
source row is too short for its index, mirroring JavaScript's `undefined`
for an out-of-bounds array access. -/
structure MenuItem where
  Date : Option Str
  Meal_Type : Option Str
  Item_Name : Option Str
  Price : Option Str
deriving DecidableEq, Repr

/-- Split one line on commas and trim each field
(`lines[i].split(',').map(v => v.trim())` in `parseCSVToJSON`). -/
def splitTrim (line : Str) : List Str :=
  (splitOnSep ',' line).map trimStr

/-- Build a record from the trimmed fields of one line, positionally:
`{ Date: values[0], Meal_Type: values[1], Item_Name: values[2],
Price: values[3] }`. -/
def mkItem (values : List Str) : MenuItem :=
  { Date := values.get? 0, Meal_Type := values.get? 1,
    Item_Name := values.get? 2, Price := values.get? 3 }

/-- Embedding of `parseCSVToJSON` (`App.tsx` lines 19-36): trim the whole
text, split into lines, read the header line's field count, and convert
exactly those data lines whose field count equals the header's.  The `[]`
branch of the match is unreachable because `splitOnSep` never returns an
empty list. -/
def parseCSVToJSON (csv : Str) : List MenuItem :=
  match splitOnSep '\n' (trimStr csv) with
  | [] => []
  | header :: dataLines =>
      let headers := splitTrim header
      dataLines.filterMap (fun line =>
        let values := splitTrim line
        if values.length = headers.length then some (mkItem values) else none)

/-- Embedding of the filter on line 50 of `App.tsx`:
`data.filter(item => item.Date === today)`.  A record whose `Date` field is
`undefined` (`none`) never equals the string `today`. -/
def filterToday (data : List MenuItem) (today : Str) : List MenuItem :=
  data.filter (fun item => item.Date = some today)

/-- Grouping key of a record.  `groupByMealType` indexes a plain object with
`item.Meal_Type`; JavaScript coerces the property key `undefined` to the
string `"undefined"`. -/
def mealKey (item : MenuItem) : Str :=
  item.Meal_Type.getD (("undefined").data)

/-- The property names of `Object.prototype` (ES2023).  A property access
on the plain object `grouped` that finds no own property continues through
the prototype chain, and every one of these inherited members is truthy
(a function, or for `__proto__` the prototype object itself). -/
def protoKeys : List Str :=
  [("constructor").data, ("hasOwnProperty").data, ("isPrototypeOf").data,
   ("propertyIsEnumerable").data, ("toLocaleString").data, ("toString").data,
   ("valueOf").data, ("__proto__").data, ("__defineGetter__").data,
   ("__defineSetter__").data, ("__lookupGetter__").data, ("__lookupSetter__").data]

/-- The own-property update of the object `grouped` for one record: extend
the existing bucket of the key, or create a new own key after the existing
ones (new own string keys are created in insertion order).  The prototype
chain consulted by the `!grouped[k]` guard is handled in
`groupByMealType`. -/
def insertGrouped : List (Str × List MenuItem) → Str → MenuItem → List (Str × List MenuItem)
  | [], k, item => [(k, [item])]
  | (k', l) :: rest, k, item =>
      if k' = k then (k', l ++ [item]) :: rest
      else (k', l) :: insertGrouped rest k item

/-- Embedding of `groupByMealType` (`App.tsx` lines 73-82).  The guard
`if (!grouped[item.Meal_Type])` looks the key up through the prototype
chain: when the category names an `Object.prototype` member (for example
`toString` or `__proto__`) the inherited member is truthy, the bucket is
never created, and `grouped[item.Meal_Type].push(item)` throws a
TypeError — modelled as `none`.  (An own bucket can never shadow such a
name, because its creation is exactly what the truthy guard skips.) -/
def groupByMealType (menuItems : List MenuItem) : Option (List (Str × List MenuItem)) :=
  menuItems.foldlM (fun acc item =>
    if mealKey item ∈ protoKeys then none
    else some (insertGrouped acc (mealKey item) item)) []

/-- Decimal value of a digit string. -/
def digitsToNat (s : Str) : Nat :=
  s.foldl (fun n c => 10 * n + (c.toNat - 48)) 0

/-- A canonical array-index property key: a canonical decimal numeral (no
sign, no leading zero except `0` itself) whose value is below 2^32 - 1. -/
def isCanonIndex (s : Str) : Bool :=
  (decide (s ≠ []) && s.all Char.isDigit &&
      (decide (s.head? ≠ some '0') || decide (s = ['0']))) &&
    decide (digitsToNat s < 4294967295)

/-- The numeric order on array-index keys. -/
def numLE (a b : Str) : Prop := digitsToNat a ≤ digitsToNat b

instance : DecidableRel numLE := fun a b => Nat.decLe (digitsToNat a) (digitsToNat b)

/-- Embedding of the key enumeration order of `Object.keys` (ECMAScript
OrdinaryOwnPropertyKeys): own keys that are canonical array indices (such
as the string `5`) come first, in ascending numeric order, followed by the
remaining string keys in creation order. -/
def jsKeysOrder (ks : List Str) : List Str :=
  List.insertionSort numLE (ks.filter isCanonIndex) ++
    ks.filter (fun c => !(isCanonIndex c))

/-- The fixed priority list (`App.tsx` line 84). -/
def mealTypeOrder : List Str :=
  [("Breakfast").data, ("Lunch").data, ("Snacks").data, ("Dinner").data]

/-- Index of the first occurrence of `x`, or `none`. -/
def idxOf? : List Str → Str → Option Nat
  | [], _ => none
  | y :: ys, x => if y = x then some 0 else (idxOf? ys x).map (· + 1)

/-- Embedding of `Array.prototype.indexOf`: first index, or `-1`. -/
def jsIndexOf (l : List Str) (x : Str) : Int :=
  match idxOf? l x with
  | some i => (i : Int)
  | none => -1

/-- The comparator key of `sortedMealTypes`:
`aIndex === -1 ? 999 : aIndex`. -/
def mealRank (c : Str) : Int :=
  let i := jsIndexOf mealTypeOrder c
  if i = -1 then 999 else i

/-- The sort order induced by the comparator
`(aIndex === -1 ? 999 : aIndex) - (bIndex === -1 ? 999 : bIndex)`:
`a` may come before `b` iff the comparator is nonpositive. -/
def mealLE (a b : Str) : Prop := mealRank a ≤ mealRank b

instance : DecidableRel mealLE := fun a b => Int.decLe (mealRank a) (mealRank b)

/-- Embedding of `sortedMealTypes` given `groupedMenu` (`App.tsx` lines
86-90): `Object.keys(groupedMenu).sort(comparator)`.  `Object.keys` yields
`jsKeysOrder` of the own keys, and `Array.prototype.sort` is stable, so the
sort is embedded as the stable `List.insertionSort` over the comparator's
order. -/
def sortedKeys (groupedMenu : List (Str × List MenuItem)) : List Str :=
  List.insertionSort mealLE (jsKeysOrder (groupedMenu.map Prod.fst))

/-- The sorted category order computed by a render from `menuItems`:
`none` when `groupByMealType` already threw. -/
def sortedMealTypes (menuItems : List MenuItem) : Option (List Str) :=
  (groupByMealType menuItems).map sortedKeys

/-- Modelled from the spec: the category names in the stable order they are
first encountered in the filtered records (spec section 4.3, "in the stable
order they were first encountered").  Compared against the key order that
`groupByMealType` actually produces. -/
def encounterOrder (menuItems : List MenuItem) : List Str :=
  menuItems.foldl (fun ks i => if mealKey i ∈ ks then ks else ks ++ [mealKey i]) []

/-- All records of a grouped view, in view order. -/
def viewItems (g : List (Str × List MenuItem)) : List MenuItem :=
  g.flatMap Prod.snd

/-- The full pipeline of one refresh cycle (parse, filter, group, sort),
as run by `fetchMenuData` and the render body of `App`; the group and sort
components are `none` when the grouper throws. -/
def pipelineView (csv today : Str) :
    Option (List (Str × List MenuItem)) × Option (List Str) :=
  let data := parseCSVToJSON csv
  let todaysMenu := filterToday data today
  (groupByMealType todaysMenu, sortedMealTypes todaysMenu)

/-- The component state owned by `App`
(`menuItems`, `loading`, `error`, `currentDate`). -/
structure AppState where
  menuItems : List MenuItem
  loading : Bool
  error : Option Str
  currentDate : Str
deriving DecidableEq, Repr

/-- Outcome of the `fetch` of one cycle.  `failure` covers a transport
error, a non-ok response status (`if (!response.ok) throw ...`), and a body
read failure; it carries the underlying cause text, which the code only
logs. -/
inductive FetchResult where
  | success (body : Str)
  | failure (cause : Str)
deriving DecidableEq, Repr

/-- The fixed user-facing error message set by the catch block. -/
def errorMessage : Str :=
  ("Unable to load menu. Please try again later.").data

/-- The state updates before the `await fetch`:
`setLoading(true); setError(null)`. -/
def startCycle (s : AppState) : AppState :=
  { s with loading := true, error := none }

/-- Embedding of one complete run of `fetchMenuData` (`App.tsx` lines
38-65) from a previous state, given the fetch outcome, today's ISO date
string, and the formatted date label.  The try block filters and stores the
parsed records and the label; the catch block stores the fixed error
message; the finally block clears `loading`. -/
def fetchMenuData (s : AppState) (result : FetchResult) (today dateLabel : Str) : AppState :=
  let s1 := startCycle s
  match result with
  | FetchResult.success body =>
      let data := parseCSVToJSON body
      let todaysMenu := filterToday data today
      let s2 := { s1 with menuItems := todaysMenu, currentDate := dateLabel }
      { s2 with loading := false }
  | FetchResult.failure _cause =>
      let s2 := { s1 with error := some errorMessage }
      { s2 with loading := false }

/-- What the main block of `App` renders, by the ternary chain on lines
152-168: the loading indicator, the error message, the empty-state message
("Menu not updated yet."), or the grouped menu. -/
inductive DisplayState where
  | Loading
  | Error (msg : Str)
  | Empty
  | Menu (view : List (Str × List MenuItem)) (order : List Str)
deriving DecidableEq, Repr

/-- The render dispatch of `App`.  The component body computes
`groupedMenu` and `sortedMealTypes` (lines 85-90) before any branch of the
ternary chain `loading ? ... : error ? ... : menuItems.length === 0 ? ...`
is chosen, so a throwing grouper crashes every render of that state —
modelled as `none` — even when the loading or error branch would have been
displayed. -/
def displayState (s : AppState) : Option DisplayState :=
  match groupByMealType s.menuItems with
  | none => none
  | some groupedMenu =>
      some
        (if s.loading then DisplayState.Loading
         else
           match s.error with
           | some m => DisplayState.Error m
           | none =>
               if s.menuItems.isEmpty then DisplayState.Empty
               else DisplayState.Menu groupedMenu (sortedKeys groupedMenu))

/-- A concrete record used in witnesses. -/
def mkMenuItem (d c n p : String) : MenuItem :=
  { Date := some d.data, Meal_Type := some c.data,
    Item_Name := some n.data, Price := some p.data }

/-- Scenario-A style input: a header, two well-formed rows, one malformed
row. -/
def csvA : Str :=
  ("Date,Meal_Type,Item_Name,Price\n2024-01-01,Lunch,Rice,50\n2024-01-01,Breakfast,Idli,30\nbadrow,onlytwo").data

/-- Header line of `csvA`. -/
def headerA : Str := ("Date,Meal_Type,Item_Name,Price").data

/-- Well-formed input: a header and one row. -/
def csvC : Str := ("Date,Meal_Type,Item_Name,Price\n2024-01-01,Lunch,Rice,50").data

/-- The single data line of `csvC`. -/
def lineC : Str := ("2024-01-01,Lunch,Rice,50").data

/-- Records whose categories are encountered in the order
Dinner, Breakfast, Snacks, Unknown, Lunch. -/
def itemsFive : List MenuItem :=
  [mkMenuItem "2024-01-01" "Dinner" "Dosa" "40",
   mkMenuItem "2024-01-01" "Breakfast" "Idli" "30",
   mkMenuItem "2024-01-01" "Snacks" "Vada" "20",
   mkMenuItem "2024-01-01" "Unknown" "Juice" "25",
   mkMenuItem "2024-01-01" "Lunch" "Rice" "50"]

/-- The data lines of `csvA`, in file order. -/
def linesA : List Str :=
  [("2024-01-01,Lunch,Rice,50").data, ("2024-01-01,Breakfast,Idli,30").data,
   ("badrow,onlytwo").data]

/-- A state left by an earlier successful cycle: it still holds one record
and a date label. -/
def prevState : AppState :=
  { menuItems := [mkMenuItem "2024-01-01" "Lunch" "Rice" "50"], loading := false,
    error := none, currentDate := ("Monday, 1 January 2024").data }

/-- The state of a fresh mount: no records, loading, no error, empty date
label. -/
def initialState : AppState :=
  { menuItems := [], loading := true, error := none, currentDate := [] }

/-- The ISO date string 2024-01-01. -/
def dT : Str := ("2024-01-01").data

/-- A record whose category names an `Object.prototype` member. -/
def tItem : MenuItem := mkMenuItem "2024-01-01" "toString" "Chai" "10"

/-- A record with an ordinary category, used in witnesses. -/
def rLunch : MenuItem := mkMenuItem "2024-01-01" "Lunch" "Rice" "50"

/-- Two non-priority categories, the integer-like one encountered second. -/
def itemsZebra : List MenuItem :=
  [mkMenuItem "2024-01-01" "Zebra" "A" "1", mkMenuItem "2024-01-01" "5" "B" "2"]

/-- A fetched body whose only matching row has the category `toString`. -/
def csvT : Str :=
  ("Date,Meal_Type,Item_Name,Price\n2024-01-01,toString,Chai,10").data

/- ------------------------------------------------------------------ -/
/- Theorems                                                           -/
/- ------------------------------------------------------------------ -/

/-- Splitting any string yields at least one field, as in JavaScript. -/
theorem splitOnSep_ne_nil (sep : Char) (s : Str) : splitOnSep sep s ≠ [] := by
  cases s with
  | nil => simp [splitOnSep]
  | cons c cs =>
      simp only [splitOnSep]
      by_cases h : c = sep
      · simp [h]
      · simp only [h, if_false]
        cases hs : splitOnSep sep cs <;> simp

/-- Unfolding of `parseCSVToJSON` once the line split is known. -/
theorem parseCSVToJSON_eq (csv header : Str) (dataLines : List Str)
    (hsplit : splitOnSep '\n' (trimStr csv) = header :: dataLines) :
    parseCSVToJSON csv = dataLines.filterMap (fun line =>
      if (splitTrim line).length = (splitTrim header).length then
        some (mkItem (splitTrim line))
      else none) := by
  unfold parseCSVToJSON
  rw [hsplit]

/-- A `filterMap` whose function is an if-then-else over `some ∘ f` is the
`map` of `f` over the `filter`. -/
theorem filterMap_ite {α β : Type} (P : α → Prop) [DecidablePred P] (f : α → β)
    (l : List α) :
    (l.filterMap fun x => if P x then some (f x) else none) =
      (l.filter fun x => decide (P x)).map f := by
  induction l with
  | nil => rfl
  | cons x xs ih =>
      by_cases h : P x <;> simp [List.filterMap_cons, List.filter_cons, h, ih]

/-- Looking up the inserted key finds its bucket, with the item appended. -/
theorem lookup_insertGrouped_self (acc : List (Str × List MenuItem)) (k : Str)
    (item : MenuItem) :
    (insertGrouped acc k item).lookup k = some (((acc.lookup k).getD []) ++ [item]) := by
  induction acc with
  | nil => simp [insertGrouped, List.lookup]
  | cons p rest ih =>
      obtain ⟨k', l⟩ := p
      by_cases h : k' = k
      · subst h
        simp [insertGrouped, List.lookup]
      · simp only [insertGrouped, if_neg h, List.lookup]
        have hbeq : (k == k') = false := by
          simp [beq_eq_false_iff_ne]
          exact fun e => h e.symm
        simp [hbeq, ih]

/-- Looking up any other key is unchanged by an insertion. -/
theorem lookup_insertGrouped_ne (acc : List (Str × List MenuItem)) (k c : Str)
    (item : MenuItem) (hck : c ≠ k) :
    (insertGrouped acc k item).lookup c = acc.lookup c := by
  have hbk : (c == k) = false := by
    simp only [beq_eq_false_iff_ne, ne_eq]
    exact hck
  induction acc with
  | nil => simp [insertGrouped, List.lookup, hbk]
  | cons p rest ih =>
      obtain ⟨k', l⟩ := p
      by_cases h : k' = k
      · subst h
        simp [insertGrouped, List.lookup, hbk]
      · simp only [insertGrouped, if_neg h, List.lookup]
        by_cases hc : c = k'
        · simp [hc]
        · have hbeq : (c == k') = false := by
            simp only [beq_eq_false_iff_ne, ne_eq]
            exact hc
          simp [hbeq, ih]

/-- The bucket of a key after the grouping fold: whatever the accumulator
already held for that key, followed by the matching records in order. -/
theorem lookup_group_foldl (items : List MenuItem) :
    ∀ (acc : List (Str × List MenuItem)) (c : Str),
      ((items.foldl (fun a i => insertGrouped a (mealKey i) i) acc).lookup c).getD [] =
        ((acc.lookup c).getD []) ++ items.filter (fun i => decide (mealKey i = c)) := by
  induction items with
  | nil => intro acc c; simp
  | cons i items ih =>
      intro acc c
      simp only [List.foldl_cons]
      rw [ih]
      by_cases h : mealKey i = c
      · subst h
        rw [lookup_insertGrouped_self]
        simp [List.filter_cons]
      · rw [lookup_insertGrouped_ne acc (mealKey i) c i (fun e => h e.symm)]
        simp [List.filter_cons, h]

/-- The key list after one insertion: unchanged if the key is present,
otherwise the key is appended at the end. -/
theorem keys_insertGrouped (acc : List (Str × List MenuItem)) (k : Str)
    (item : MenuItem) :
    (insertGrouped acc k item).map Prod.fst =
      if k ∈ acc.map Prod.fst then acc.map Prod.fst else acc.map Prod.fst ++ [k] := by
  induction acc with
  | nil => simp [insertGrouped]
  | cons p rest ih =>
      obtain ⟨k', l⟩ := p
      by_cases h : k' = k
      · subst h
        simp [insertGrouped]
      · have h' : ¬ k = k' := fun e => h e.symm
        simp only [insertGrouped, if_neg h, List.map_cons, ih]
        by_cases hm : k ∈ rest.map Prod.fst
        · simp [hm, h']
        · simp [hm, h']

/-- The grouping fold produces keys exactly in first-encounter order. -/
theorem keys_group_foldl (items : List MenuItem) :
    ∀ acc : List (Str × List MenuItem),
      (items.foldl (fun a i => insertGrouped a (mealKey i) i) acc).map Prod.fst =
        items.foldl (fun ks i => if mealKey i ∈ ks then ks else ks ++ [mealKey i])
          (acc.map Prod.fst) := by
  induction items with
  | nil => intro acc; rfl
  | cons i items ih =>
      intro acc
      simp only [List.foldl_cons]
      rw [ih, keys_insertGrouped]

/-- The own-key order of the grouping fold is the first-encounter order of
the records' categories. -/
theorem keys_groupFold (items : List MenuItem) :
    ((items.foldl (fun a i => insertGrouped a (mealKey i) i) []).map Prod.fst) =
      encounterOrder items :=
  keys_group_foldl items []

/-- When no category names an `Object.prototype` member, the grouper does
not throw, and its value is the pure own-property fold. -/
theorem groupFoldM_eq_some (items : List MenuItem) :
    ∀ acc : List (Str × List MenuItem), (∀ i ∈ items, mealKey i ∉ protoKeys) →
      (items.foldlM (fun acc item =>
          if mealKey item ∈ protoKeys then none
          else some (insertGrouped acc (mealKey item) item)) acc) =
        some (items.foldl (fun a i => insertGrouped a (mealKey i) i) acc) := by
  induction items with
  | nil => intro acc _; rfl
  | cons i items ih =>
      intro acc h
      have hi : mealKey i ∉ protoKeys := h i (by simp)
      rw [List.foldlM_cons, if_neg hi, List.foldl_cons]
      simp only [Option.bind_eq_bind, Option.some_bind]
      exact ih _ (fun j hj => h j (by simp [hj]))

/-- `groupByMealType` succeeds exactly as the own-property fold when no
category names an `Object.prototype` member. -/
theorem groupByMealType_eq_some (items : List MenuItem)
    (h : ∀ i ∈ items, mealKey i ∉ protoKeys) :
    groupByMealType items =
      some (items.foldl (fun a i => insertGrouped a (mealKey i) i) []) := by
  unfold groupByMealType
  exact groupFoldM_eq_some items [] h

/-- Membership in the first-encounter fold. -/
theorem mem_encounter_foldl (items : List MenuItem) :
    ∀ (ks : List Str) (c : Str),
      (c ∈ items.foldl (fun a i => if mealKey i ∈ a then a else a ++ [mealKey i]) ks) ↔
        c ∈ ks ∨ c ∈ items.map mealKey := by
  induction items with
  | nil => intro ks c; simp
  | cons i items ih =>
      intro ks c
      simp only [List.foldl_cons]
      rw [ih]
      by_cases h : mealKey i ∈ ks
      · simp only [if_pos h, List.map_cons, List.mem_cons]
        constructor
        · rintro (hk | hm)
          · exact Or.inl hk
          · exact Or.inr (Or.inr hm)
        · rintro (hk | rfl | hm)
          · exact Or.inl hk
          · exact Or.inl h
          · exact Or.inr hm
      · simp only [if_neg h, List.mem_append, List.map_cons, List.mem_cons,
          List.mem_singleton]
        tauto

/-- The first-encounter fold never duplicates a key. -/
theorem nodup_encounter_foldl (items : List MenuItem) :
    ∀ ks : List Str, ks.Nodup →
      (items.foldl (fun a i => if mealKey i ∈ a then a else a ++ [mealKey i]) ks).Nodup := by
  induction items with
  | nil => intro ks hks; simpa using hks
  | cons i items ih =>
      intro ks hks
      simp only [List.foldl_cons]
      by_cases h : mealKey i ∈ ks
      · simpa [h] using ih ks hks
      · refine ih _ ?_
        simp [h, List.nodup_append, hks]

/-- `Object.keys` enumeration is a reordering: same members. -/
theorem mem_jsKeysOrder (ks : List Str) (c : Str) : c ∈ jsKeysOrder ks ↔ c ∈ ks := by
  unfold jsKeysOrder
  rw [List.mem_append, (List.perm_insertionSort numLE (ks.filter isCanonIndex)).mem_iff]
  constructor
  · rintro (h | h) <;> exact (List.mem_filter.mp h).1
  · intro h
    by_cases hp : isCanonIndex c
    · exact Or.inl (List.mem_filter.mpr ⟨h, hp⟩)
    · refine Or.inr (List.mem_filter.mpr ⟨h, ?_⟩)
      simp only [Bool.not_eq_true] at hp
      simp [hp]

/-- `Object.keys` enumeration of duplicate-free keys is duplicate-free. -/
theorem nodup_jsKeysOrder (ks : List Str) (h : ks.Nodup) : (jsKeysOrder ks).Nodup := by
  unfold jsKeysOrder
  rw [List.nodup_append]
  refine ⟨(List.perm_insertionSort numLE (ks.filter isCanonIndex)).nodup_iff.mpr
    (h.filter _), h.filter _, ?_⟩
  intro a ha hb
  have h1 := (List.mem_filter.mp
    ((List.perm_insertionSort numLE (ks.filter isCanonIndex)).mem_iff.mp ha)).2
  have h2 := (List.mem_filter.mp hb).2
  rw [h1] at h2
  simp at h2

/-- A record is in the view after one insertion iff it was in the view
before or is the inserted record. -/
theorem mem_viewItems_insertGrouped (acc : List (Str × List MenuItem)) (k : Str)
    (item r : MenuItem) :
    r ∈ viewItems (insertGrouped acc k item) ↔ r ∈ viewItems acc ∨ r = item := by
  induction acc with
  | nil => simp [insertGrouped, viewItems]
  | cons p rest ih =>
      obtain ⟨k', l⟩ := p
      by_cases h : k' = k
      · subst h
        rw [show insertGrouped ((k', l) :: rest) k' item = (k', l ++ [item]) :: rest from
          by rw [insertGrouped, if_pos rfl]]
        simp only [viewItems, List.flatMap_cons, List.mem_append, List.mem_singleton]
        tauto
      · rw [show insertGrouped ((k', l) :: rest) k item =
            (k', l) :: insertGrouped rest k item from by rw [insertGrouped, if_neg h]]
        simp only [viewItems, List.flatMap_cons, List.mem_append] at ih ⊢
        tauto

/-- A record is in the grouped view iff it is in the accumulator's view or
among the grouped records. -/
theorem mem_viewItems_group_foldl (items : List MenuItem) :
    ∀ (acc : List (Str × List MenuItem)) (r : MenuItem),
      r ∈ viewItems (items.foldl (fun a i => insertGrouped a (mealKey i) i) acc) ↔
        r ∈ viewItems acc ∨ r ∈ items := by
  induction items with
  | nil => intro acc r; simp
  | cons i items ih =>
      intro acc r
      simp only [List.foldl_cons]
      rw [ih, mem_viewItems_insertGrouped]
      simp only [List.mem_cons]
      tauto

/-- Counterexample to C2: a record dated today whose category is
`toString` appears in no output view, because the grouper throws a
TypeError on it and the pipeline produces no view at all — refuting the
claimed equivalence at this input. -/
theorem claim_C2_counterexample :
    ¬ ((∃ g, groupByMealType (filterToday [tItem] dT) = some g ∧ tItem ∈ viewItems g) ↔
        (tItem ∈ [tItem] ∧ tItem.Date = some dT)) := by
  intro hiff
  obtain ⟨g, hg, _⟩ := hiff.mpr ⟨by decide, by decide⟩
  rw [show groupByMealType (filterToday [tItem] dT) = none from by decide] at hg
  exact Option.noConfusion hg

/-- C2 as amended: a record appears in the filter's output iff it is an
input record whose `Date` field equals the `today` string exactly; and
provided no matching record's category names an `Object.prototype` member
(otherwise the grouper throws and there is no view), the grouped view
exists and a record appears in it under exactly the same condition. -/
theorem claim_C2 (data : List MenuItem) (today : Str) (r : MenuItem) :
    (r ∈ filterToday data today ↔ r ∈ data ∧ r.Date = some today) ∧
      ((∀ i ∈ filterToday data today, mealKey i ∉ protoKeys) →
        ∃ g, groupByMealType (filterToday data today) = some g ∧
          (r ∈ viewItems g ↔ r ∈ data ∧ r.Date = some today)) := by
  have h1 : r ∈ filterToday data today ↔ r ∈ data ∧ r.Date = some today := by
    simp [filterToday, List.mem_filter]
  refine ⟨h1, fun hp => ⟨_, groupByMealType_eq_some _ hp, ?_⟩⟩
  rw [mem_viewItems_group_foldl (filterToday data today) [] r]
  simp only [viewItems, List.flatMap_nil, List.not_mem_nil, false_or]
  exact h1

/-- Witness for C2's amended view conjunct at a concrete record list. -/
theorem claim_C2_witness :
    ∃ g, groupByMealType (filterToday itemsFive dT) = some g ∧
      (rLunch ∈ viewItems g ↔ rLunch ∈ itemsFive ∧ rLunch.Date = some dT) :=
  (claim_C2 itemsFive dT rLunch).2 (by decide)

/-- Counterexample to C7: the program does not partition every record
list — for a record whose category is `toString` the grouper throws a
TypeError instead of producing any partition. -/
theorem claim_C7_counterexample :
    groupByMealType [tItem] = none ∧ mealKey tItem = ("toString").data ∧
      ¬ ∃ g, groupByMealType [tItem] = some g := by
  refine ⟨by decide, by decide, ?_⟩
  rintro ⟨g, hg⟩
  rw [show groupByMealType [tItem] = none from by decide] at hg
  exact Option.noConfusion hg

/-- C7 as amended: when no category names an `Object.prototype` member,
grouping succeeds and partitions the records by category: the bucket of
every category is exactly the subsequence of records carrying that
category, in input order, and a category has a bucket iff some record
carries it. -/
theorem claim_C7 (items : List MenuItem) (c : Str)
    (h : ∀ i ∈ items, mealKey i ∉ protoKeys) :
    ∃ g, groupByMealType items = some g ∧
      ((g.lookup c).getD [] = items.filter (fun i => decide (mealKey i = c))) ∧
      (c ∈ g.map Prod.fst ↔ c ∈ items.map mealKey) := by
  refine ⟨_, groupByMealType_eq_some items h, ?_, ?_⟩
  · rw [lookup_group_foldl items [] c]
    simp [List.lookup]
  · rw [keys_groupFold]
    have := mem_encounter_foldl items [] c
    simpa using this

/-- Witness for C7 at a concrete record list and category. -/
theorem claim_C7_witness :
    ∃ g, groupByMealType itemsFive = some g ∧
      ((g.lookup (("Lunch").data)).getD [] =
        itemsFive.filter (fun i => decide (mealKey i = ("Lunch").data))) ∧
      ((("Lunch").data) ∈ g.map Prod.fst ↔ (("Lunch").data) ∈ itemsFive.map mealKey) :=
  claim_C7 itemsFive (("Lunch").data) (by decide)

/-- A key absent from a list has no index. -/
theorem idxOf?_eq_none (l : List Str) (x : Str) (hx : x ∉ l) : idxOf? l x = none := by
  induction l with
  | nil => rfl
  | cons y ys ih =>
      have hyx : ¬ y = x := fun e => hx (by simp [e])
      have hys : x ∉ ys := fun m => hx (by simp [m])
      simp [idxOf?, hyx, ih hys]

/-- A found index is below the list length. -/
theorem idxOf?_lt_length (l : List Str) (x : Str) :
    ∀ i : Nat, idxOf? l x = some i → i < l.length := by
  induction l with
  | nil => intro i h; simp [idxOf?] at h
  | cons y ys ih =>
      intro i h
      by_cases hyx : y = x
      · rw [idxOf?, if_pos hyx] at h
        have : i = 0 := by
          have := Option.some.inj h
          omega
        subst this
        simp
      · rw [idxOf?, if_neg hyx] at h
        rw [Option.map_eq_some'] at h
        obtain ⟨j, hj, rfl⟩ := h
        have := ih j hj
        simp only [List.length_cons]
        omega

/-- A category not in the priority list gets comparator key 999. -/
theorem mealRank_not_mem (k : Str) (hk : k ∉ mealTypeOrder) : mealRank k = 999 := by
  unfold mealRank jsIndexOf
  rw [idxOf?_eq_none mealTypeOrder k hk]
  rfl

/-- A category in the priority list gets a comparator key below 999. -/
theorem mealRank_lt_of_mem (y : Str) (hy : y ∈ mealTypeOrder) : mealRank y < 999 := by
  simp only [mealTypeOrder, List.mem_cons, List.mem_singleton, List.not_mem_nil,
    or_false] at hy
  rcases hy with rfl | rfl | rfl | rfl <;> decide

/-- Every comparator key is at most 999. -/
theorem mealRank_le_999 (c : Str) : mealRank c ≤ 999 := by
  unfold mealRank jsIndexOf
  cases h : idxOf? mealTypeOrder c with
  | none => simp
  | some i =>
      have hi := idxOf?_lt_length mealTypeOrder c i h
      simp only [mealTypeOrder, List.length_cons, List.length_nil] at hi
      by_cases h0 : (i : Int) = -1
      · simp [h0]
      · simp only [h0, if_false]
        omega

/-- The function `List.orderedInsert` walks past a block it compares above. -/
theorem orderedInsert_append (k : Str) (L U : List Str)
    (h : ∀ y ∈ L, ¬ mealLE k y) :
    List.orderedInsert mealLE k (L ++ U) = L ++ List.orderedInsert mealLE k U := by
  induction L with
  | nil => rfl
  | cons y L ih =>
      have hy : ¬ mealLE k y := h y (by simp)
      have e : (y :: L) ++ U = y :: (L ++ U) := rfl
      rw [e, List.orderedInsert, if_neg hy, ih (fun z hz => h z (by simp [hz]))]
      rfl

/-- The function `List.orderedInsert` stops in front of a block it compares at-or-below. -/
theorem orderedInsert_cons_all (k : Str) (U : List Str)
    (h : ∀ y ∈ U, mealLE k y) :
    List.orderedInsert mealLE k U = k :: U := by
  cases U with
  | nil => rfl
  | cons y ys => simp [List.orderedInsert, if_pos (h y (by simp))]

/-- Inserting a priority category `k` into a filtered view of the priority
list, written as `pre ++ k :: suf`, lands exactly at `k`'s slot. -/
theorem orderedInsert_filter_split (k : Str) (pre suf ks U : List Str)
    (hpre : ∀ y ∈ pre, ¬ mealLE k y ∧ ¬ y = k)
    (hsuf : ∀ y ∈ suf, mealLE k y ∧ ¬ y = k)
    (hU : ∀ y ∈ U, mealLE k y)
    (hk : k ∉ ks) :
    List.orderedInsert mealLE k
        ((pre ++ k :: suf).filter (fun c => decide (c ∈ ks)) ++ U) =
      (pre ++ k :: suf).filter (fun c => decide (c ∈ k :: ks)) ++ U := by
  have e1 : (pre ++ k :: suf).filter (fun c => decide (c ∈ ks)) =
      pre.filter (fun c => decide (c ∈ ks)) ++ suf.filter (fun c => decide (c ∈ ks)) := by
    rw [List.filter_append, List.filter_cons]
    simp [hk]
  have epre : pre.filter (fun c => decide (c ∈ k :: ks)) =
      pre.filter (fun c => decide (c ∈ ks)) := by
    apply List.filter_congr
    intro y hy
    simp only [decide_eq_decide, List.mem_cons]
    have := (hpre y hy).2
    tauto
  have esuf : suf.filter (fun c => decide (c ∈ k :: ks)) =
      suf.filter (fun c => decide (c ∈ ks)) := by
    apply List.filter_congr
    intro y hy
    simp only [decide_eq_decide, List.mem_cons]
    have := (hsuf y hy).2
    tauto
  have e2 : (pre ++ k :: suf).filter (fun c => decide (c ∈ k :: ks)) =
      pre.filter (fun c => decide (c ∈ ks)) ++
        k :: suf.filter (fun c => decide (c ∈ ks)) := by
    rw [List.filter_append, List.filter_cons, epre, esuf]
    simp
  rw [e1, e2, List.append_assoc,
    orderedInsert_append k _ _
      (fun y hy => (hpre y (List.mem_of_mem_filter hy)).1),
    orderedInsert_cons_all k _ ?_]
  · simp
  · intro y hy
    rcases List.mem_append.mp hy with hy | hy
    · exact (hsuf y (List.mem_of_mem_filter hy)).1
    · exact hU y hy

/-- The stable sort of a duplicate-free key list under the comparator:
priority categories first, in priority-list order, then the rest in their
original (first-encounter) order. -/
theorem insertionSort_keys (ks : List Str) (h : ks.Nodup) :
    List.insertionSort mealLE ks =
      mealTypeOrder.filter (fun c => decide (c ∈ ks)) ++
        ks.filter (fun c => decide (c ∉ mealTypeOrder)) := by
  induction ks with
  | nil => simp [List.insertionSort]
  | cons k ks ih =>
      have hk : k ∉ ks := (List.nodup_cons.mp h).1
      have hnd : ks.Nodup := (List.nodup_cons.mp h).2
      have hU : ∀ y ∈ ks.filter (fun c => decide (c ∉ mealTypeOrder)), mealLE k y := by
        intro y hy
        have hyM : y ∉ mealTypeOrder := by
          have := List.of_mem_filter hy
          simpa using this
        unfold mealLE
        rw [mealRank_not_mem y hyM]
        exact mealRank_le_999 k
      simp only [List.insertionSort, ih hnd]
      by_cases hkM : k ∈ mealTypeOrder
      · have efilt : (k :: ks).filter (fun c => decide (c ∉ mealTypeOrder)) =
            ks.filter (fun c => decide (c ∉ mealTypeOrder)) := by
          rw [List.filter_cons]
          simp [hkM]
        rw [efilt]
        simp only [mealTypeOrder, List.mem_cons, List.mem_singleton,
          List.not_mem_nil, or_false] at hkM
        rcases hkM with rfl | rfl | rfl | rfl
        · have e : mealTypeOrder = [] ++ ("Breakfast").data ::
              [("Lunch").data, ("Snacks").data, ("Dinner").data] := rfl
          rw [e]
          exact orderedInsert_filter_split _ _ _ ks _
            (by intro y hy; simp at hy)
            (by intro y hy; simp only [List.mem_cons, List.mem_singleton,
                List.not_mem_nil, or_false] at hy
                rcases hy with rfl | rfl | rfl <;> exact ⟨by decide, by decide⟩)
            hU hk
        · have e : mealTypeOrder = [("Breakfast").data] ++ ("Lunch").data ::
              [("Snacks").data, ("Dinner").data] := rfl
          rw [e]
          exact orderedInsert_filter_split _ _ _ ks _
            (by intro y hy; simp only [List.mem_singleton] at hy
                subst hy; exact ⟨by decide, by decide⟩)
            (by intro y hy; simp only [List.mem_cons, List.mem_singleton,
                List.not_mem_nil, or_false] at hy
                rcases hy with rfl | rfl <;> exact ⟨by decide, by decide⟩)
            hU hk
        · have e : mealTypeOrder = [("Breakfast").data, ("Lunch").data] ++
              ("Snacks").data :: [("Dinner").data] := rfl
          rw [e]
          exact orderedInsert_filter_split _ _ _ ks _
            (by intro y hy; simp only [List.mem_cons, List.mem_singleton,
                List.not_mem_nil, or_false] at hy
                rcases hy with rfl | rfl <;> exact ⟨by decide, by decide⟩)
            (by intro y hy; simp only [List.mem_singleton] at hy
                subst hy; exact ⟨by decide, by decide⟩)
            hU hk
        · have e : mealTypeOrder = [("Breakfast").data, ("Lunch").data,
              ("Snacks").data] ++ ("Dinner").data :: [] := rfl
          rw [e]
          exact orderedInsert_filter_split _ _ _ ks _
            (by intro y hy; simp only [List.mem_cons, List.mem_singleton,
                List.not_mem_nil, or_false] at hy
                rcases hy with rfl | rfl | rfl <;> exact ⟨by decide, by decide⟩)
            (by intro y hy; simp at hy)
            hU hk
      · have hrk : mealRank k = 999 := mealRank_not_mem k hkM
        have hL : ∀ y ∈ mealTypeOrder.filter (fun c => decide (c ∈ ks)), ¬ mealLE k y := by
          intro y hy
          have hyM : y ∈ mealTypeOrder := List.mem_of_mem_filter hy
          unfold mealLE
          rw [hrk]
          have := mealRank_lt_of_mem y hyM
          omega
        rw [orderedInsert_append k _ _ hL,
          orderedInsert_cons_all k _ hU]
        have eM : mealTypeOrder.filter (fun c => decide (c ∈ k :: ks)) =
            mealTypeOrder.filter (fun c => decide (c ∈ ks)) := by
          apply List.filter_congr
          intro y hy
          have : ¬ y = k := fun e => hkM (e ▸ hy)
          simp only [decide_eq_decide, List.mem_cons]
          tauto
        have eks : (k :: ks).filter (fun c => decide (c ∉ mealTypeOrder)) =
            k :: ks.filter (fun c => decide (c ∉ mealTypeOrder)) := by
          rw [List.filter_cons]
          simp [hkM]
        rw [eM, eks]

/-- Counterexample to C3: with the non-priority categories Zebra then 5
(first-encounter order), `Object.keys` enumerates the integer-like key 5
first, so the program sorts them to [5, Zebra], not the first-encounter
order [Zebra, 5] the claim predicts. -/
theorem claim_C3_counterexample :
    sortedMealTypes itemsZebra = some [("5").data, ("Zebra").data] ∧
      (mealTypeOrder.filter (fun c => decide (c ∈ encounterOrder itemsZebra)) ++
          (encounterOrder itemsZebra).filter (fun c => decide (c ∉ mealTypeOrder))) =
        [("Zebra").data, ("5").data] ∧
      ([("5").data, ("Zebra").data] : List Str) ≠ [("Zebra").data, ("5").data] := by
  refine ⟨by decide, by decide, by decide⟩

/-- C3 as amended: when no category names an `Object.prototype` member
(otherwise the grouper throws before any order exists), the own keys are
created in first-encounter order, and the displayed order is: the
categories present that occur in the fixed priority list, in priority-list
position order, followed by the categories absent from the list in the
order `Object.keys` enumerates them — integer-like (array-index) category
names first in ascending numeric order, then the remaining categories in
first-encounter order.  The five categories Dinner, Breakfast, Snacks,
Unknown, Lunch (none integer-like) sort to Breakfast, Lunch, Snacks,
Dinner, Unknown. -/
theorem claim_C3 :
    (∀ items : List MenuItem, (∀ i ∈ items, mealKey i ∉ protoKeys) →
        ∃ g, groupByMealType items = some g ∧
          g.map Prod.fst = encounterOrder items ∧
          sortedMealTypes items = some
            (mealTypeOrder.filter (fun c => decide (c ∈ encounterOrder items)) ++
              (jsKeysOrder (encounterOrder items)).filter
                (fun c => decide (c ∉ mealTypeOrder)))) ∧
      sortedMealTypes itemsFive =
        some [("Breakfast").data, ("Lunch").data, ("Snacks").data, ("Dinner").data,
          ("Unknown").data] := by
  constructor
  · intro items h
    refine ⟨_, groupByMealType_eq_some items h, keys_groupFold items, ?_⟩
    unfold sortedMealTypes
    rw [groupByMealType_eq_some items h]
    simp only [Option.map_some']
    unfold sortedKeys
    rw [keys_groupFold items,
      insertionSort_keys (jsKeysOrder (encounterOrder items))
        (nodup_jsKeysOrder _ (nodup_encounter_foldl items [] List.nodup_nil))]
    congr 2
    apply List.filter_congr
    intro c _
    simp only [decide_eq_decide]
    exact mem_jsKeysOrder (encounterOrder items) c
  · decide

/-- Witness for C3's amended universal part at a concrete record list. -/
theorem claim_C3_witness :
    ∃ g, groupByMealType itemsFive = some g ∧
      g.map Prod.fst = encounterOrder itemsFive ∧
      sortedMealTypes itemsFive = some
        (mealTypeOrder.filter (fun c => decide (c ∈ encounterOrder itemsFive)) ++
          (jsKeysOrder (encounterOrder itemsFive)).filter
            (fun c => decide (c ∉ mealTypeOrder))) :=
  claim_C3.1 itemsFive (by decide)

/-- C1: for every delimited input whose data rows all have the header's
field count, `parseCSVToJSON` returns exactly one record per data row, in
file order, each built positionally (date, category, name, price) from the
trimmed fields of its row. -/
theorem claim_C1 (csv header : Str) (dataLines : List Str)
    (hsplit : splitOnSep '\n' (trimStr csv) = header :: dataLines)
    (hok : ∀ l ∈ dataLines, (splitTrim l).length = (splitTrim header).length) :
    parseCSVToJSON csv = dataLines.map (fun l => mkItem (splitTrim l)) := by
  rw [parseCSVToJSON_eq csv header dataLines hsplit,
    filterMap_ite (fun l => (splitTrim l).length = (splitTrim header).length)
      (fun l => mkItem (splitTrim l))]
  rw [List.filter_eq_self.mpr (by intro l hl; simpa using hok l hl)]

/-- Witness for C1 at a concrete two-line input. -/
theorem claim_C1_witness :
    splitOnSep '\n' (trimStr csvC) = headerA :: [lineC] ∧
      parseCSVToJSON csvC = [lineC].map (fun l => mkItem (splitTrim l)) :=
  ⟨by decide, claim_C1 csvC headerA [lineC] (by decide) (by decide)⟩

/-- C4: every data row whose field count differs from the header's is
dropped, without any error: the parse result is exactly the well-formed
rows, converted in file order. -/
theorem claim_C4 (csv header : Str) (dataLines : List Str)
    (hsplit : splitOnSep '\n' (trimStr csv) = header :: dataLines) :
    parseCSVToJSON csv =
      (dataLines.filter
          (fun l => decide ((splitTrim l).length = (splitTrim header).length))).map
        (fun l => mkItem (splitTrim l)) := by
  rw [parseCSVToJSON_eq csv header dataLines hsplit,
    filterMap_ite (fun l => (splitTrim l).length = (splitTrim header).length)
      (fun l => mkItem (splitTrim l))]

/-- Witness for C4 at a concrete input containing a malformed row. -/
theorem claim_C4_witness :
    parseCSVToJSON csvA =
      (linesA.filter
          (fun l => decide ((splitTrim l).length = (splitTrim headerA).length))).map
        (fun l => mkItem (splitTrim l)) :=
  claim_C4 csvA headerA linesA (by decide)

/-- C10: parsing is total.  For every input — in particular the empty
string, a whitespace-only string, and a header-only string — the header
access is safe because splitting the trimmed input yields at least one
line, and the parse returns a (possibly empty) record list. -/
theorem claim_C10 :
    (∀ csv : Str, ∃ header dataLines,
        splitOnSep '\n' (trimStr csv) = header :: dataLines ∧
          parseCSVToJSON csv = dataLines.filterMap (fun line =>
            if (splitTrim line).length = (splitTrim header).length then
              some (mkItem (splitTrim line))
            else none)) ∧
      parseCSVToJSON [] = [] ∧ parseCSVToJSON ((" ").data) = [] ∧
      parseCSVToJSON (("Date,Meal_Type,Item_Name,Price").data) = [] := by
  refine ⟨fun csv => ?_, by decide, by decide, by decide⟩
  cases h : splitOnSep '\n' (trimStr csv) with
  | nil => exact absurd h (splitOnSep_ne_nil '\n' (trimStr csv))
  | cons header dataLines =>
      exact ⟨header, dataLines, rfl, parseCSVToJSON_eq csv header dataLines h⟩

/-- Counterexample to C5: a successful fetch whose matching row carries
the category `toString` makes a pipeline stage (the render-time grouper)
throw, yet the cycle does not end in the `Error` state: the stored error
is `none` and the render crashes (`none`) instead of showing the fixed
message. -/
theorem claim_C5_counterexample :
    (fetchMenuData initialState (FetchResult.success csvT) dT
        (("Monday, 1 January 2024").data)).error = none ∧
      groupByMealType (fetchMenuData initialState (FetchResult.success csvT) dT
        (("Monday, 1 January 2024").data)).menuItems = none ∧
      displayState (fetchMenuData initialState (FetchResult.success csvT) dT
        (("Monday, 1 January 2024").data)) = none := by
  refine ⟨by decide, by decide, by decide⟩

/-- C5 as amended: whenever the fetch fails (transport error or non-ok
status) — parse and filter, the only pipeline stages inside the try block,
never throw — the cycle ends with the one fixed user-facing error message
stored, `loading` cleared, the resulting state independent of the
underlying cause text (which is only logged), and, provided the surviving
records' categories keep the render-time grouper from throwing, the
`Error` display state carrying that fixed message.  The group/sort stage
runs at render time outside the try/catch, so a throw there crashes the
render instead of producing the `Error` state. -/
theorem claim_C5 (s : AppState) (cause cause' today label : Str)
    (hs : ∀ i ∈ s.menuItems, mealKey i ∉ protoKeys) :
    (fetchMenuData s (FetchResult.failure cause) today label).error =
        some errorMessage ∧
      (fetchMenuData s (FetchResult.failure cause) today label).loading = false ∧
      fetchMenuData s (FetchResult.failure cause) today label =
        fetchMenuData s (FetchResult.failure cause') today label ∧
      displayState (fetchMenuData s (FetchResult.failure cause) today label) =
        some (DisplayState.Error errorMessage) := by
  refine ⟨rfl, rfl, rfl, ?_⟩
  have hg := groupByMealType_eq_some s.menuItems hs
  simp [displayState, fetchMenuData, startCycle, hg]

/-- Witness for C5 at a concrete previous state and two distinct causes. -/
theorem claim_C5_witness :
    (fetchMenuData prevState (FetchResult.failure (("ECONNRESET").data)) dT
        (("Monday, 1 January 2024").data)).error = some errorMessage ∧
      (fetchMenuData prevState (FetchResult.failure (("ECONNRESET").data)) dT
        (("Monday, 1 January 2024").data)).loading = false ∧
      fetchMenuData prevState (FetchResult.failure (("ECONNRESET").data)) dT
          (("Monday, 1 January 2024").data) =
        fetchMenuData prevState (FetchResult.failure (("HTTP 500").data)) dT
          (("Monday, 1 January 2024").data) ∧
      displayState (fetchMenuData prevState (FetchResult.failure (("ECONNRESET").data))
          dT (("Monday, 1 January 2024").data)) =
        some (DisplayState.Error errorMessage) :=
  claim_C5 prevState (("ECONNRESET").data) (("HTTP 500").data) dT
    (("Monday, 1 January 2024").data) (by decide)

/-- C6: a successful cycle in which no record matches `today` ends in the
ready/empty display state ("Menu not updated yet."), not in the error
state: the stored error is `none`. -/
theorem claim_C6 (s : AppState) (body today label : Str)
    (h : filterToday (parseCSVToJSON body) today = []) :
    displayState (fetchMenuData s (FetchResult.success body) today label) =
        some DisplayState.Empty ∧
      (fetchMenuData s (FetchResult.success body) today label).error = none := by
  refine ⟨?_, rfl⟩
  simp [displayState, fetchMenuData, startCycle, h, groupByMealType]

/-- Witness for C6: a dated menu fetched on a day with no matching rows. -/
theorem claim_C6_witness :
    displayState (fetchMenuData initialState (FetchResult.success csvC)
        (("2024-01-02").data) []) = some DisplayState.Empty ∧
      (fetchMenuData initialState (FetchResult.success csvC)
        (("2024-01-02").data) []).error = none :=
  claim_C6 initialState csvC (("2024-01-02").data) [] (by decide)

/-- C8: the parse-filter-group-sort pipeline is a pure function of the
input text and the `today` string: two runs on identical inputs yield
identical output views. -/
theorem claim_C8 (csv csv' today today' : Str) (hcsv : csv = csv')
    (htoday : today = today') :
    pipelineView csv today = pipelineView csv' today' := by
  rw [hcsv, htoday]

/-- Witness for C8 at concrete inputs. -/
theorem claim_C8_witness :
    pipelineView csvA (("2024-01-01").data) = pipelineView csvA (("2024-01-01").data) :=
  claim_C8 csvA csvA (("2024-01-01").data) (("2024-01-01").data) rfl rfl

/-- Counterexample to C9: a cycle that ends in the `Error` state does not
replace the exposed state in full — the record and the date label of the
previous cycle survive it unchanged.  (`fetchMenuData`'s catch path calls
neither `setMenuItems` nor `setCurrentDate`.) -/
theorem claim_C9_counterexample :
    (fetchMenuData prevState (FetchResult.failure (("network down").data))
          (("2024-01-02").data) (("Tuesday, 2 January 2024").data)).menuItems =
        prevState.menuItems ∧
      (fetchMenuData prevState (FetchResult.failure (("network down").data))
          (("2024-01-02").data) (("Tuesday, 2 January 2024").data)).currentDate =
        prevState.currentDate ∧
      prevState.menuItems ≠ [] := by
  exact ⟨rfl, rfl, by decide⟩

/-- C9 as amended: a cycle that completes successfully replaces the record
set, view, and date label in full (its result does not depend on the
previous state at all), while a cycle that ends in the `Error` state
replaces only the `error` and `loading` fields, leaving the previous
record set and date label in place (they are not rendered, since the error
branch takes precedence). -/
theorem claim_C9_amended :
    (∀ (s s' : AppState) (body today label : Str),
        fetchMenuData s (FetchResult.success body) today label =
          fetchMenuData s' (FetchResult.success body) today label) ∧
      (∀ (s : AppState) (cause today label : Str),
        (fetchMenuData s (FetchResult.failure cause) today label).menuItems =
            s.menuItems ∧
          (fetchMenuData s (FetchResult.failure cause) today label).currentDate =
            s.currentDate ∧
          (fetchMenuData s (FetchResult.failure cause) today label).error =
            some errorMessage ∧
          (fetchMenuData s (FetchResult.failure cause) today label).loading = false) :=
  ⟨fun _ _ _ _ _ => rfl, fun _ _ _ _ => ⟨rfl, rfl, rfl, rfl⟩⟩
